import Mathlib

/-!
Verification development for the highlights-bot Signal Fusion engine and
EDL (Edit Decision List) processor.

Python floats are modelled as `ℚ`, Python `int` as `ℤ`, optional/absent
dictionary fields as `Option`, and fallible code paths (exceptions) as
`Option`.  All definitions are shallow embeddings of the corresponding
functions in `edl.py`, `detect_fusion.py` and `util.py`.
-/

/-- Python `int(x)` truncation of a rational toward zero. -/
def pyInt (q : ℚ) : ℤ :=
  if 0 ≤ q then Int.floor q else Int.ceil q

/-- Test that every character of the list is a decimal digit and the list is
nonempty (the shape accepted by Python `int(...)` after an optional sign). -/
def allDigits (cs : List Char) : Bool :=
  !cs.isEmpty && cs.all Char.isDigit

/-- Numeric value of a digit list, most significant first. -/
def digitsVal (cs : List Char) : ℕ :=
  cs.foldl (fun n c => 10 * n + (c.toNat - 48)) 0

/-- Parse a nonempty all-digit character list as a natural number, the
fragment of Python `int(str)` used by the timecode utilities. -/
def parseNatDigits (cs : List Char) : Option ℕ :=
  if allDigits cs then some (digitsVal cs) else none

/-- Python `int(s)` on a string: optional sign followed by digits; `none`
models the `ValueError` raised on any other input. -/
def pyParseInt (cs : List Char) : Option ℤ :=
  match cs with
  | '-' :: rest => (parseNatDigits rest).map (fun n => -(n : ℤ))
  | '+' :: rest => (parseNatDigits rest).map (fun n => (n : ℤ))
  | rest => (parseNatDigits rest).map (fun n => (n : ℤ))

/-- Split a character list on a separator character, Python `str.split(sep)`
for a single-character separator: `"".split(c) = [""]`, separators at the
ends produce empty pieces. -/
def splitOnChar (c : Char) : List Char → List (List Char)
  | [] => [[]]
  | a :: rest =>
    let r := splitOnChar c rest
    if a == c then [] :: r
    else
      match r with
      | [] => [[a]]
      | h :: t => (a :: h) :: t

/-- Python `float(s)` on a nonnegative decimal literal `digits[.digits]`;
`none` models `ValueError`. -/
def pyParseFloatNN (cs : List Char) : Option ℚ :=
  match splitOnChar '.' cs with
  | [ip] => (parseNatDigits ip).map (fun n => (n : ℚ))
  | [ip, fp] =>
    match parseNatDigits ip, parseNatDigits fp with
    | some a, some b => some ((a : ℚ) + (b : ℚ) / (10 : ℚ) ^ fp.length)
    | _, _ => none
  | _ => none

/-- Python `float(s)` on a decimal literal with optional leading minus sign. -/
def pyParseFloat (cs : List Char) : Option ℚ :=
  match cs with
  | '-' :: rest => (pyParseFloatNN rest).map (fun q => -q)
  | rest => pyParseFloatNN rest

/-- Embedding of `TimeCodeUtils.parse_match_clock`: convert `"mm:ss"` (or
`"hh:mm:ss"`, or a bare decimal) to seconds, returning `0` when parsing
raises `ValueError` or `IndexError` (the caught exceptions). -/
def parse_match_clock (s : String) : ℚ :=
  let parts := splitOnChar ':' s.toList
  if parts.length == 2 then
    match pyParseInt (parts.getD 0 []), pyParseInt (parts.getD 1 []) with
    | some m, some sec => (m : ℚ) * 60 + (sec : ℚ)
    | _, _ => 0
  else if parts.length == 3 then
    match pyParseInt (parts.getD 0 []), pyParseInt (parts.getD 1 []),
        pyParseInt (parts.getD 2 []) with
    | some h, some m, some sec => (h : ℚ) * 3600 + (m : ℚ) * 60 + (sec : ℚ)
    | _, _, _ => 0
  else
    match pyParseFloat s.toList with
    | some q => q
    | none => 0

/-- Embedding of `TimeCodeUtils.parse_timestamp`: convert `"HH:MM:SS.sss"`
to seconds.  The Python code catches `ValueError`/`IndexError` and returns
`0.0`, so every parse failure yields `0` here. -/
def parse_timestamp (ts : String) : ℚ :=
  let cs := ts.toList
  let time_part := (splitOnChar '.' cs).getD 0 []
  let microsec_part := if cs.contains '.' then (splitOnChar '.' cs).getD 1 [] else ['0']
  match splitOnChar ':' time_part with
  | [hs, ms, ss] =>
    match pyParseInt hs, pyParseInt ms, pyParseInt ss with
    | some h, some m, some s =>
      let total : ℚ := (h : ℚ) * 3600 + (m : ℚ) * 60 + (s : ℚ)
      if microsec_part.isEmpty then total
      else
        match pyParseFloat ('0' :: '.' :: microsec_part) with
        | some f => total + f
        | none => 0
    | _, _, _ => 0
  | _ => 0

/-- Embedding of `TimeCodeUtils.compute_absolute_time`: absolute timestamp
from match half, clock string and kickoff time (`ht_duration` minutes of
half time, default 15 at every call site in the core). -/
def compute_absolute_time (half : ℤ) (clock : String) (kickoffTime : ℚ)
    (htDuration : ℤ) : ℚ :=
  let clockSeconds := parse_match_clock clock
  if half = 1 then kickoffTime + clockSeconds
  else if half = 2 then
    kickoffTime + 49 * 60 + (htDuration : ℚ) * 60 + clockSeconds
  else kickoffTime + clockSeconds

/-- Value of a dynamically typed `abs_ts` field in a raw event record: the
JSON payload may carry a string or a number there. -/
inductive PyVal where
  | str (s : String)
  | num (q : ℚ)
deriving DecidableEq, Repr

/-- Python truthiness of an optional `abs_ts` payload: `None`, `0` and the
empty string are falsy. -/
def pyTruthy : Option PyVal → Bool
  | none => false
  | some (PyVal.str s) => !(s == "")
  | some (PyVal.num q) => !(q == 0)

/-- Value of the raw `score` field: a `"H-A"` string or an already
structured home/away pair. -/
inductive ScoreVal where
  | strv (s : String)
  | dictv (home away : ℤ)
deriving DecidableEq, Repr

/-- Raw guided/auto event record, the dictionary consumed by
`EDLProcessor._create_event_from_data`; absent keys are `none`. -/
structure RawEvent where
  type : Option String := none
  abs_ts : Option PyVal := none
  half : Option ℤ := none
  clock : Option String := none
  team : Option String := none
  player : Option String := none
  assist : Option String := none
  score : Option ScoreVal := none
  notes : Option String := none
  status : Option String := none
  confidence : Option ℚ := none
  signals : List String := []
deriving DecidableEq, Repr

/-- Embedding of the `Event` dataclass of `edl.py`. -/
structure Event where
  type : String
  abs_ts : ℚ
  half : Option ℤ := none
  clock : Option String := none
  team : Option String := none
  player : Option String := none
  assist : Option String := none
  score : Option (ℤ × ℤ) := none
  notes : Option String := none
  status : Option String := none
  confidence : ℚ := 1
  signals : List String := []
  source : String := "guided"
  pre_padding : ℚ := 0
  post_padding : ℚ := 0
  zoom_enabled : Bool := false
  replay_enabled : Bool := false
deriving DecidableEq, Repr

/-- Embedding of `EDLProcessor._create_event_from_data`.  `none` models both
return paths that drop the record: the explicit warning-and-return-None when
no timestamp can be computed, and the broad `except Exception` (for example
a non-string `abs_ts` payload reaching `str.split`, or a missing `type`
key).  An unparseable `abs_ts` string does NOT raise: `parse_timestamp`
returns `0`. -/
def create_event_from_data (kickoffTime : Option ℚ) (data : RawEvent)
    (source : String) : Option Event :=
  let absStep : Option ℚ :=
    if pyTruthy data.abs_ts then
      match data.abs_ts with
      | some (PyVal.str s) => some (parse_timestamp s)
      | some (PyVal.num _) => none
      | none => none
    else
      match kickoffTime, data.half, data.clock with
      | some k, some h, some c => some (compute_absolute_time h c k 15)
      | _, _, _ => none
  match absStep, data.type with
  | some ts, some ty =>
    let parsedScore : Option (ℤ × ℤ) :=
      match data.score with
      | some (ScoreVal.strv s) =>
        let parts := splitOnChar '-' s.toList
        match pyParseInt (parts.getD 0 []), pyParseInt (parts.getD 1 []) with
        | some h, some a => some (h, a)
        | _, _ => none
      | some (ScoreVal.dictv h a) => some (h, a)
      | none => none
    some { type := ty, abs_ts := ts, half := data.half, clock := data.clock,
           team := data.team, player := data.player, assist := data.assist,
           score := parsedScore, notes := data.notes, status := data.status,
           confidence := data.confidence.getD 1, signals := data.signals,
           source := source }
  | _, _ => none

/-- Embedding of the loop body of `EDLProcessor.set_kickoff_time`: a guided
event with truthy `half` and `clock` gets its `abs_ts` recomputed from the
new kickoff time; every other event is untouched. -/
def set_kickoff_event (kickoffTs : ℚ) (e : Event) : Event :=
  if e.source == "guided" then
    match e.half, e.clock with
    | some h, some c =>
      if h ≠ 0 ∧ c ≠ "" then
        { e with abs_ts := compute_absolute_time h c kickoffTs 15 }
      else e
    | _, _ => e
  else e

/-- Embedding of `EDLProcessor.set_kickoff_time` over the stored event
list. -/
def set_kickoff_time (kickoffTs : ℚ) (events : List Event) : List Event :=
  events.map (set_kickoff_event kickoffTs)

/-- Embedding of `EDLProcessor._events_similar`: same type, or both types in
one of the related-type classes. -/
def events_similar (e1 e2 : Event) : Bool :=
  e1.type == e2.type ||
    [["goal", "goal_like"], ["big_save", "save"],
     ["chance", "goal_like"], ["foul", "card"]].any
      (fun s => s.contains e1.type && s.contains e2.type)

/-- Stable insertion of an element into a list sorted by the total boolean
preorder `le`: the element goes right before the first entry `b` with
`le a b`.  Together with `sortLe` this models Python `sorted`/`list.sort`,
which are stable. -/
def insertLe (le : α → α → Bool) (a : α) : List α → List α
  | [] => [a]
  | b :: l => if le a b then a :: b :: l else b :: insertLe le a l

/-- Stable sort by the total boolean preorder `le` (model of Python sorted
with a key function). -/
def sortLe (le : α → α → Bool) : List α → List α
  | [] => []
  | a :: l => insertLe le a (sortLe le l)

/-- Sort key comparison of `merge_and_dedupe`: ascending `abs_ts`. -/
def tsLe (a b : Event) : Bool := decide (a.abs_ts ≤ b.abs_ts)

/-- Priority table of `EDLProcessor._rank_events` (`.get(type, 0)`). -/
def priority_score (t : String) : ℤ :=
  if t == "goal" then 10
  else if t == "goal_like" then 9
  else if t == "big_save" then 8
  else if t == "save" then 7
  else if t == "chance" then 6
  else if t == "card" then 5
  else if t == "foul" then 4
  else if t == "celebration" then 3
  else 0

/-- Lexicographic "key less-or-equal" of the Python sort key
`(-priority, -confidence, abs_ts)` used by `_rank_events`. -/
def rankLe (a b : Event) : Bool :=
  decide (priority_score b.type < priority_score a.type) ||
    (priority_score a.type == priority_score b.type &&
      (decide (b.confidence < a.confidence) ||
        (a.confidence == b.confidence && decide (a.abs_ts ≤ b.abs_ts))))

/-- Embedding of `EDLProcessor._rank_events`. -/
def rank_events (events : List Event) : List Event :=
  sortLe rankLe events

/-- Conflict scan of one auto event against the guided list in
`EDLProcessor.merge_and_dedupe`.  `find?` models the `for`/`break` over
guided events; `List.erase` models `final_events.remove(...)`, and the
`none` result models the uncaught `ValueError` Python would raise if the
conflicting guided event had already been removed from `final_events`. -/
def resolve_auto (dedupeWindow : ℚ) (guided finalEvents : List Event)
    (a : Event) : Option (List Event) :=
  match guided.find?
      (fun g => events_similar a g && decide (|a.abs_ts - g.abs_ts| ≤ dedupeWindow)) with
  | some g =>
    if g.confidence + 3 / 20 ≤ a.confidence then
      if finalEvents.contains g then some (finalEvents.erase g ++ [a]) else none
    else some finalEvents
  | none => some (finalEvents ++ [a])

/-- Embedding of `EDLProcessor.merge_and_dedupe`: start from the guided
events, resolve each auto event against the guided list, sort by `abs_ts`
(stably), then cap to `max_clips` through `_rank_events` when over budget. -/
def merge_and_dedupe (dedupeWindow : ℚ) (maxClips : ℕ) (events : List Event) :
    Option (List Event) :=
  let guided := events.filter (fun e => e.source == "guided")
  let auto := events.filter (fun e => e.source == "auto")
  match auto.foldlM (resolve_auto dedupeWindow guided) guided with
  | none => none
  | some finalEvents =>
    let sorted := sortLe tsLe finalEvents
    some (if maxClips < sorted.length then (rank_events sorted).take maxClips
          else sorted)

/-- Per-event body of `EDLProcessor.validate_clip_durations`: extend
`post_padding` up to the minimum clip length, or scale both paddings down
proportionally to the maximum. -/
def validate_clip_event (minDuration maxDuration : ℚ) (e : Event) : Event :=
  let total := e.pre_padding + e.post_padding
  if total < minDuration then
    { e with post_padding := e.post_padding + (minDuration - total) }
  else if maxDuration < total then
    let scale := maxDuration / total
    { e with pre_padding := e.pre_padding * scale,
             post_padding := e.post_padding * scale }
  else e

/-- Embedding of `EDLProcessor.validate_clip_durations` over the stored
event list. -/
def validate_clip_durations (minDuration maxDuration : ℚ)
    (events : List Event) : List Event :=
  events.map (validate_clip_event minDuration maxDuration)

/-- Detection record consumed by `SignalFusion`: the dictionary fields the
fusion engine reads, absent keys modelled as `none`. -/
structure Detection where
  timestamp : Option ℚ := none
  type : Option String := none
  energy : Option ℚ := none
  magnitude : Option ℚ := none
  difference : Option ℚ := none
  confidence : Option ℚ := none
deriving DecidableEq, Repr

/-- Embedding of `SignalFusion._get_confidence`: signal-specific normalized
confidence extraction. -/
def get_confidence (d : Detection) (signalType : String) : ℚ :=
  if signalType == "json" then 1
  else if signalType == "audio" then min ((d.energy.getD 1) / 3) 1
  else if signalType == "flow" then min ((d.magnitude.getD (5 / 2)) / 10) 1
  else if signalType == "scene_cut" then min ((d.difference.getD 30) / 100) 1
  else d.confidence.getD (1 / 2)

/-- Default signal weight table of `SignalFusion.__init__` together with the
`.get(signal_type, 1.0)` fallback. -/
def default_weight (t : String) : ℚ :=
  if t == "json" then 5
  else if t == "yolo" then 2
  else if t == "audio" then 3 / 2
  else if t == "whistle" then 1
  else if t == "flow" then 1
  else if t == "scene_cut" then 1 / 2
  else if t == "commentary" then 6 / 5
  else 1

/-- Timestamp a detection contributes: `detection.get("timestamp", 0)`. -/
def detTimestamp (d : Detection) : ℚ := d.timestamp.getD 0

/-- Bucket index assigned by `fuse_signals`:
`int(timestamp / self.bucket_size)`. -/
def bucketIdxOf (bucketSize : ℚ) (d : Detection) : ℤ :=
  pyInt (detTimestamp d / bucketSize)

/-- Flattened `(signal_type, detection)` stream in the iteration order of
`fuse_signals` (signal types in mapping order, detections in list order;
empty detection lists contribute nothing, matching the `continue`). -/
def allEntries (signals : List (String × List Detection)) :
    List (String × Detection) :=
  signals.flatMap (fun p => p.2.map (fun d => (p.1, d)))

/-- Entries accumulated in the bucket of index `i` by `fuse_signals`, in
insertion order. -/
def bucketEntries (bucketSize : ℚ) (signals : List (String × List Detection))
    (i : ℤ) : List (String × Detection) :=
  (allEntries signals).filter (fun p => bucketIdxOf bucketSize p.2 == i)

/-- Timestamps list accumulated in bucket `i` (`bucket["timestamps"]`). -/
def bucketTimestamps (bucketSize : ℚ)
    (signals : List (String × List Detection)) (i : ℤ) : List ℚ :=
  (bucketEntries bucketSize signals i).map (fun p => detTimestamp p.2)

/-- Weighted running score of bucket `i` (`bucket["score"]`). -/
def bucketScore (weights : String → ℚ) (bucketSize : ℚ)
    (signals : List (String × List Detection)) (i : ℤ) : ℚ :=
  ((bucketEntries bucketSize signals i).map
    (fun p => weights p.1 * get_confidence p.2 p.1)).sum

/-- Append an element to an accumulator unless already present: used to
model insertion-order iteration over the keys of the `defaultdict` and over
a Python set built by successive `add` calls. -/
def insertUniq [BEq α] (l : List α) (x : α) : List α :=
  if l.contains x then l else l ++ [x]

/-- Distinct bucket indices in first-touch order (iteration order of the
`defaultdict` keys in `fuse_signals`). -/
def bucketIndices (bucketSize : ℚ)
    (signals : List (String × List Detection)) : List ℤ :=
  ((allEntries signals).map (fun p => bucketIdxOf bucketSize p.2)).foldl
    insertUniq []

/-- Distinct event-type tags collected in bucket `i`
(`bucket["types"].add(detection.get("type", signal_type))`). -/
def bucketTypes (bucketSize : ℚ) (signals : List (String × List Detection))
    (i : ℤ) : List String :=
  ((bucketEntries bucketSize signals i).map
    (fun p => p.2.type.getD p.1)).foldl insertUniq []

/-- One contributing-signal entry of a fused event
(`{"type": ..., "detection": ..., "weight": ...}`). -/
structure SigEntry where
  type : String
  detection : Detection
  weight : ℚ
deriving DecidableEq, Repr

/-- Fused event produced by `SignalFusion.fuse_signals`. -/
structure FEvent where
  timestamp : ℚ := 0
  bucket_idx : ℤ := 0
  score : ℚ := 0
  raw_score : ℚ := 0
  num_signals : ℕ := 0
  signal_types : List String := []
  signals : List SigEntry := []
deriving DecidableEq, Repr

/-- Fused event emitted for bucket `i`: average timestamp, score normalized
by the number of signals (`score / max(num_signals, 1)`), raw score and the
contributing entries. -/
def fusedEventAt (weights : String → ℚ) (bucketSize : ℚ)
    (signals : List (String × List Detection)) (i : ℤ) : FEvent :=
  let entries := bucketEntries bucketSize signals i
  let tss := bucketTimestamps bucketSize signals i
  let score := bucketScore weights bucketSize signals i
  { timestamp := tss.sum / (tss.length : ℚ),
    bucket_idx := i,
    score := score / (max entries.length 1 : ℕ),
    raw_score := score,
    num_signals := entries.length,
    signal_types := bucketTypes bucketSize signals i,
    signals := entries.map (fun p =>
      { type := p.1, detection := p.2, weight := weights p.1 }) }

/-- Embedding of `SignalFusion.fuse_signals`: bucket every detection, emit
one fused event per touched bucket, then drop events whose normalized score
is below `min_confidence`. -/
def fuse_signals (weights : String → ℚ) (bucketSize minConfidence : ℚ)
    (signals : List (String × List Detection)) : List FEvent :=
  ((bucketIndices bucketSize signals).map
    (fusedEventAt weights bucketSize signals)).filter
    (fun e => decide (minConfidence ≤ e.score))

/-- Python `list(set(a) | set(b))` over the signal-type tags, modelled as a
first-occurrence deduplicating union (the claims proved below do not depend
on the iteration order of a CPython set). -/
def pySetUnion (a b : List String) : List String :=
  (a ++ b).foldl insertUniq []

/-- Sort key comparison of `merge_nearby_events`: ascending timestamp. -/
def ftsLe (a b : FEvent) : Bool := decide (a.timestamp ≤ b.timestamp)

/-- Merge update of `merge_nearby_events`: absorb `e` into the current
merged event, concatenating signal lists, set-unioning signal types,
summing `raw_score` and `num_signals` and keeping the maximum `score` (the
timestamp is left untouched). -/
def agg_step (cur e : FEvent) : FEvent :=
  { cur with
    signals := cur.signals ++ e.signals,
    signal_types := pySetUnion cur.signal_types e.signal_types,
    raw_score := cur.raw_score + e.raw_score,
    score := max cur.score e.score,
    num_signals := cur.num_signals + e.num_signals }

/-- Fold step of `SignalFusion.merge_nearby_events`: the scanned event is
absorbed into the current merged event when its gap to the timestamp of the
current event (which stays the timestamp of the first event of the group — it is
never updated on merge) is strictly below the window; otherwise the current
merged event is emitted and the scanned event starts a new group. -/
def merge_step (timeWindow : ℚ) (acc : List FEvent × FEvent) (e : FEvent) :
    List FEvent × FEvent :=
  if e.timestamp - acc.2.timestamp < timeWindow then (acc.1, agg_step acc.2 e)
  else (acc.1 ++ [acc.2], e)

/-- Embedding of `SignalFusion.merge_nearby_events`: sort by timestamp, then
a single left-to-right sweep with `merge_step`, appending the trailing
current event at the end. -/
def merge_nearby_events (timeWindow : ℚ) (events : List FEvent) :
    List FEvent :=
  match sortLe ftsLe events with
  | [] => []
  | e0 :: rest =>
    let p := rest.foldl (merge_step timeWindow) ([], e0)
    p.1 ++ [p.2]

/-- Test that the character list `needle` is an initial segment of `hay`. -/
def startsWithL : List Char → List Char → Bool
  | [], _ => true
  | _ :: _, [] => false
  | a :: as, b :: bs => a == b && startsWithL as bs

/-- Test that `needle` occurs as a contiguous substring of `hay`: Python
`needle in hay` on strings, at the character-list level. -/
def containsSub (needle : List Char) : List Char → Bool
  | [] => startsWithL needle []
  | b :: bs => startsWithL needle (b :: bs) || containsSub needle bs

/-- Python string join with a single-space separator, at the
character-list level. -/
def joinSp : List (List Char) → List Char
  | [] => []
  | [t] => t
  | t :: ts => t ++ ' ' :: joinSp ts

/-- Output record of `SignalFusion.export_to_json_events`. -/
structure JsonEvent where
  id : String
  timestamp : ℚ
  minute : ℤ
  type : String
  confidence : ℚ
  signals : List String
  auto_detected : Bool
deriving DecidableEq, Repr

/-- Synthetic event type assigned by `export_to_json_events`: substring
tests against the space-joined signal-type tags for goal/save, then list
membership tests for whistle and strong audio spikes. -/
def event_type_of (e : FEvent) : String :=
  let joined := joinSp (e.signal_types.map String.toList)
  if containsSub ("goal".toList) joined then "goal"
  else if containsSub ("save".toList) joined ||
      containsSub ("big_save".toList) joined then "save"
  else if e.signal_types.contains "whistle" then "foul"
  else if e.signal_types.contains "audio_spike" && decide (3 < e.score) then
    "goal_like"
  else "highlight"

/-- One output record of `export_to_json_events` for the 1-based index
`i`. -/
def json_event_of (i : ℕ) (e : FEvent) : JsonEvent :=
  { id := "auto_" ++ toString i,
    timestamp := e.timestamp,
    minute := pyInt (e.timestamp / 60),
    type := event_type_of e,
    confidence := e.score,
    signals := e.signals.map (fun s => s.type),
    auto_detected := true }

/-- Enumeration loop of `export_to_json_events`, starting at index `i`. -/
def export_from (i : ℕ) : List FEvent → List JsonEvent
  | [] => []
  | e :: rest => json_event_of i e :: export_from (i + 1) rest

/-- Embedding of `SignalFusion.export_to_json_events` (`enumerate(..., 1)`
starts the ids at 1). -/
def export_to_json_events (fused : List FEvent) : List JsonEvent :=
  export_from 1 fused

/-- Sample event whose padding sum is exactly the minimum clip length. -/
def evPadBoundary : Event :=
  { type := "goal", abs_ts := 0, pre_padding := 2, post_padding := 4 }

/-- Guided `goal` event of the specification scenario (`abs_ts` 300,
confidence 1). -/
def gGoal : Event :=
  { type := "goal", abs_ts := 300, confidence := 1, source := "guided" }

/-- Auto `goal_like` event of the specification scenario (`abs_ts` 301,
confidence 0.9). -/
def aGoalLike : Event :=
  { type := "goal_like", abs_ts := 301, confidence := 9 / 10, source := "auto" }

/-- Guided `goal` event at timestamp 0. -/
def gGoalEarly : Event :=
  { type := "goal", abs_ts := 0, confidence := 1, source := "guided" }

/-- Guided `goal` event at timestamp 1. -/
def gGoalSecond : Event :=
  { type := "goal", abs_ts := 1, confidence := 1, source := "guided" }

/-- Auto `goal` event at timestamp 4. -/
def aGoalLate : Event :=
  { type := "goal", abs_ts := 4, confidence := 1, source := "auto" }

/-- Auto `goal` event at timestamp 0. -/
def aGoalA : Event :=
  { type := "goal", abs_ts := 0, confidence := 1, source := "auto" }

/-- Auto `goal` event at timestamp 1. -/
def aGoalB : Event :=
  { type := "goal", abs_ts := 1, confidence := 1, source := "auto" }

/-- Guided event loaded with an explicit absolute timestamp (100 seconds)
that also carries `half` and `clock` fields. -/
def evExplicit : Event :=
  { type := "goal", abs_ts := 100, half := some 1, clock := some "00:30",
    source := "guided" }

/-- Detection record with every field absent (in particular no
`timestamp`). -/
def dNoTimestamp : Detection := {}

/-- Modelled from the spec (as amended): grouping step of the merge sweep —
an event joins the current group exactly when its gap to the FIRST event of
the group (the anchor, whose timestamp the merged event keeps) is strictly
below the window; otherwise it starts a new group. -/
def group_step (timeWindow : ℚ)
    (acc : List (FEvent × List FEvent) × FEvent × List FEvent) (e : FEvent) :
    List (FEvent × List FEvent) × FEvent × List FEvent :=
  if e.timestamp - acc.2.1.timestamp < timeWindow then
    (acc.1, acc.2.1, acc.2.2 ++ [e])
  else (acc.1 ++ [(acc.2.1, acc.2.2)], e, [])

/-- Modelled from the spec (as amended): anchor/members groups of the
timestamp-sorted event stream under the anchor rule. -/
def merge_groups (timeWindow : ℚ) (events : List FEvent) :
    List (FEvent × List FEvent) :=
  match sortLe ftsLe events with
  | [] => []
  | e0 :: rest =>
    let p := rest.foldl (group_step timeWindow) ([], e0, [])
    p.1 ++ [(p.2.1, p.2.2)]

/-- Aggregation of a group: fold all members into the anchor with
`agg_step`. -/
def aggregate (anchor : FEvent) (members : List FEvent) : FEvent :=
  members.foldl agg_step anchor

/-- Fused event at timestamp 0 with unit score. -/
def fe0 : FEvent := { timestamp := 0, score := 1, raw_score := 1, num_signals := 1 }

/-- Fused event at timestamp 2 with unit score. -/
def fe2 : FEvent := { timestamp := 2, score := 1, raw_score := 1, num_signals := 1 }

/-- Fused event at timestamp 4 with unit score. -/
def fe4 : FEvent := { timestamp := 4, score := 1, raw_score := 1, num_signals := 1 }

/-- Modelled from the spec (as amended): synthetic event type by priority —
`goal` when any contributing signal-type tag contains `"goal"`, else `save`
when any tag contains `"save"` or `"big_save"`, else `foul` when
`"whistle"` is among the tags (membership, not whistle-only), else
`goal_like` when `"audio_spike"` is among the tags (not necessarily alone)
and the score exceeds 3, else `highlight`. -/
def spec_event_type (e : FEvent) : String :=
  if e.signal_types.any (fun t => containsSub ("goal".toList) t.toList) then
    "goal"
  else if e.signal_types.any
        (fun t => containsSub ("save".toList) t.toList) ||
      e.signal_types.any
        (fun t => containsSub ("big_save".toList) t.toList) then "save"
  else if e.signal_types.contains "whistle" then "foul"
  else if e.signal_types.contains "audio_spike" && decide (3 < e.score) then
    "goal_like"
  else "highlight"

/-- Modelled from the spec (as amended): one exported record — confidence
equals the fused score, the minute is the integer truncation of
`timestamp / 60`, and the type follows `spec_event_type`. -/
def spec_json_event (i : ℕ) (e : FEvent) : JsonEvent :=
  { id := "auto_" ++ toString i,
    timestamp := e.timestamp,
    minute := pyInt (e.timestamp / 60),
    type := spec_event_type e,
    confidence := e.score,
    signals := e.signals.map (fun s => s.type),
    auto_detected := true }

/-- Enumeration of the spec-side export starting at index `i`. -/
def spec_export_from (i : ℕ) : List FEvent → List JsonEvent
  | [] => []
  | e :: rest => spec_json_event i e :: spec_export_from (i + 1) rest

/-- Spec-side export of the whole fused list (ids start at 1). -/
def spec_export (fused : List FEvent) : List JsonEvent :=
  spec_export_from 1 fused

/-- Fused event whose contributing signal types are a whistle AND a flow
burst. -/
def fevWhistleFlow : FEvent :=
  { timestamp := 10, score := 1, signal_types := ["whistle", "flow_burst"] }

/-- C9: on an event list in which every padding sum already lies within
`[min_clip_len_s, max_clip_len_s]` (boundary included), the duration
validation changes no padding value, and running it twice equals running
it once. -/
theorem C9_validate_valid_unchanged (minDuration maxDuration : ℚ)
    (events : List Event)
    (h : ∀ e ∈ events,
      minDuration ≤ e.pre_padding + e.post_padding ∧
        e.pre_padding + e.post_padding ≤ maxDuration) :
    validate_clip_durations minDuration maxDuration events = events ∧
      validate_clip_durations minDuration maxDuration
          (validate_clip_durations minDuration maxDuration events) =
        validate_clip_durations minDuration maxDuration events := by
  have h1 : ∀ e ∈ events, validate_clip_event minDuration maxDuration e = e := by
    intro e he
    obtain ⟨hmin, hmax⟩ := h e he
    simp only [validate_clip_event]
    rw [if_neg (not_lt.mpr hmin), if_neg (not_lt.mpr hmax)]
  have hfix : validate_clip_durations minDuration maxDuration events = events := by
    simp only [validate_clip_durations]
    calc events.map (validate_clip_event minDuration maxDuration)
        = events.map id := List.map_congr_left h1
      _ = events := List.map_id events
  refine ⟨hfix, ?_⟩
  rw [hfix]
  exact hfix

/-- C9 witness: a singleton list at the exact minimum-length boundary is
left unmodified. -/
theorem C9_witness :
    (∀ e ∈ [evPadBoundary],
      (6 : ℚ) ≤ e.pre_padding + e.post_padding ∧
        e.pre_padding + e.post_padding ≤ 30) ∧
      validate_clip_durations 6 30 [evPadBoundary] = [evPadBoundary] := by
  have h : ∀ e ∈ [evPadBoundary],
      (6 : ℚ) ≤ e.pre_padding + e.post_padding ∧
        e.pre_padding + e.post_padding ≤ 30 := by
    simp only [List.mem_singleton, forall_eq, evPadBoundary]
    norm_num
  exact ⟨h, (C9_validate_valid_unchanged 6 30 [evPadBoundary] h).1⟩

/-- C5 counterexample: for a signal type handled by the default branch, the
raw `confidence` field is returned unclamped, so the result can lie outside
`[0, 1]`. -/
theorem C5_counterexample :
    get_confidence { confidence := some 2 } "yolo" = 2 ∧ ¬((2 : ℚ) ≤ 1) :=
  ⟨rfl, by norm_num⟩

/-- C5 (amended): branch-by-branch characterization of the confidence
extraction: ground truth is `1`, energy/magnitude/difference are divided by
their range constants and clipped to at most `1` (and are nonnegative
whenever the raw field is), while every other signal type returns the raw
`confidence` field (default `1/2`) without clamping. -/
theorem C5_get_confidence_characterization (d : Detection) (t : String) :
    get_confidence d "json" = 1 ∧
    get_confidence d "audio" = min ((d.energy.getD 1) / 3) 1 ∧
    get_confidence d "flow" = min ((d.magnitude.getD (5 / 2)) / 10) 1 ∧
    get_confidence d "scene_cut" = min ((d.difference.getD 30) / 100) 1 ∧
    (t ≠ "json" → t ≠ "audio" → t ≠ "flow" → t ≠ "scene_cut" →
      get_confidence d t = d.confidence.getD (1 / 2)) ∧
    get_confidence d "audio" ≤ 1 ∧
    get_confidence d "flow" ≤ 1 ∧
    get_confidence d "scene_cut" ≤ 1 ∧
    (0 ≤ d.energy.getD 1 → 0 ≤ get_confidence d "audio") ∧
    (0 ≤ d.magnitude.getD (5 / 2) → 0 ≤ get_confidence d "flow") ∧
    (0 ≤ d.difference.getD 30 → 0 ≤ get_confidence d "scene_cut") := by
  refine ⟨rfl, rfl, rfl, rfl, ?_, ?_, ?_, ?_, ?_, ?_, ?_⟩
  · intro h1 h2 h3 h4
    simp [get_confidence, h1, h2, h3, h4]
  · exact min_le_right _ _
  · exact min_le_right _ _
  · exact min_le_right _ _
  · intro h
    exact le_min (by positivity) zero_le_one
  · intro h
    exact le_min (by positivity) zero_le_one
  · intro h
    exact le_min (by positivity) zero_le_one

/-- C5 witness: concrete instances of the hypothesis-bearing clauses of the
characterization. -/
theorem C5_witness :
    get_confidence { confidence := some (7 / 10) } "yolo" = 7 / 10 ∧
      (0 : ℚ) ≤ get_confidence { energy := some (3 / 2) } "audio" :=
  ⟨(C5_get_confidence_characterization { confidence := some (7 / 10) }
      "yolo").2.2.2.2.1 (by decide) (by decide) (by decide) (by decide),
    (C5_get_confidence_characterization { energy := some (3 / 2) }
      "yolo").2.2.2.2.2.2.2.2.1 (by norm_num)⟩

/-- Length is preserved by stable insertion. -/
theorem length_insertLe (le : α → α → Bool) (a : α) (l : List α) :
    (insertLe le a l).length = l.length + 1 := by
  induction l with
  | nil => rfl
  | cons b t ih =>
    simp only [insertLe]
    by_cases h : le a b
    · simp [h]
    · simp [h, ih]

/-- Length is preserved by the stable sort. -/
theorem length_sortLe (le : α → α → Bool) (l : List α) :
    (sortLe le l).length = l.length := by
  induction l with
  | nil => rfl
  | cons a t ih => simp [sortLe, length_insertLe, ih]

/-- Outcome of `merge_and_dedupe` on one guided and one conflicting auto
event: the auto event replaces the guided event exactly when its confidence
clears the fixed `0.15` promotion margin. -/
theorem merge_pair_conflict (w : ℚ) (mc : ℕ) (g a : Event)
    (hg : g.source = "guided") (ha : a.source = "auto")
    (hsim : events_similar a g = true)
    (hwin : |a.abs_ts - g.abs_ts| ≤ w) (hmc : 1 ≤ mc) :
    merge_and_dedupe w mc [g, a] =
      some (if g.confidence + 3 / 20 ≤ a.confidence then [a] else [g]) := by
  have hgg : (g.source == "guided") = true := by simp [hg]
  have hga : (g.source == "auto") = false := by simp [hg]
  have hag : (a.source == "guided") = false := by simp [ha]
  have haa : (a.source == "auto") = true := by simp [ha]
  have hguided : [g, a].filter (fun e => e.source == "guided") = [g] := by
    simp [List.filter, hgg, hag]
  have hauto : [g, a].filter (fun e => e.source == "auto") = [a] := by
    simp [List.filter, hga, haa]
  have hfind : [g].find?
      (fun x => events_similar a x && decide (|a.abs_ts - x.abs_ts| ≤ w)) =
        some g := by
    simp [List.find?, hsim, hwin]
  by_cases hc : g.confidence + 3 / 20 ≤ a.confidence
  · have hfold : List.foldlM (resolve_auto w [g]) [g] [a] = some [a] := by
      simp [List.foldlM, resolve_auto, hfind, hc, List.erase_cons_head]
    simp only [merge_and_dedupe, hguided, hauto, hfold]
    have hone : ¬ (mc < (sortLe tsLe [a]).length) := by
      simp only [sortLe, insertLe, List.length_cons, List.length_nil]
      omega
    rw [if_neg hone, if_pos hc]
    simp [sortLe, insertLe]
  · have hfold : List.foldlM (resolve_auto w [g]) [g] [a] = some [g] := by
      simp [List.foldlM, resolve_auto, hfind, hc]
    simp only [merge_and_dedupe, hguided, hauto, hfold]
    have hone : ¬ (mc < (sortLe tsLe [g]).length) := by
      simp only [sortLe, insertLe, List.length_cons, List.length_nil]
      omega
    rw [if_neg hone, if_neg hc]
    simp [sortLe, insertLe]

/-- Outcome of `merge_and_dedupe` on one guided and one non-conflicting
auto event: both are retained (sorted by timestamp). -/
theorem merge_pair_no_conflict (w : ℚ) (mc : ℕ) (g a : Event)
    (hg : g.source = "guided") (ha : a.source = "auto")
    (hno : (events_similar a g && decide (|a.abs_ts - g.abs_ts| ≤ w)) = false)
    (hmc : 2 ≤ mc) :
    merge_and_dedupe w mc [g, a] = some (sortLe tsLe [g, a]) := by
  have hgg : (g.source == "guided") = true := by simp [hg]
  have hga : (g.source == "auto") = false := by simp [hg]
  have hag : (a.source == "guided") = false := by simp [ha]
  have haa : (a.source == "auto") = true := by simp [ha]
  have hguided : [g, a].filter (fun e => e.source == "guided") = [g] := by
    simp [List.filter, hgg, hag]
  have hauto : [g, a].filter (fun e => e.source == "auto") = [a] := by
    simp [List.filter, hga, haa]
  have hfind : [g].find?
      (fun x => events_similar a x && decide (|a.abs_ts - x.abs_ts| ≤ w)) =
        none := by
    simp [List.find?, hno]
  have hfold : List.foldlM (resolve_auto w [g]) [g] [a] = some [g, a] := by
    simp [List.foldlM, resolve_auto, hfind]
  simp only [merge_and_dedupe, hguided, hauto, hfold]
  have hlen : ¬ (mc < (sortLe tsLe [g, a]).length) := by
    rw [length_sortLe]
    simp only [List.length_cons, List.length_nil]
    omega
  rw [if_neg hlen]

/-- Outcome of `merge_and_dedupe` on two guided events: no deduplication is
attempted, both survive. -/
theorem merge_pair_guided (w : ℚ) (mc : ℕ) (g1 g2 : Event)
    (h1 : g1.source = "guided") (h2 : g2.source = "guided") (hmc : 2 ≤ mc) :
    merge_and_dedupe w mc [g1, g2] = some (sortLe tsLe [g1, g2]) := by
  have h1g : (g1.source == "guided") = true := by simp [h1]
  have h1a : (g1.source == "auto") = false := by simp [h1]
  have h2g : (g2.source == "guided") = true := by simp [h2]
  have h2a : (g2.source == "auto") = false := by simp [h2]
  have hguided : [g1, g2].filter (fun e => e.source == "guided") = [g1, g2] := by
    simp [List.filter, h1g, h2g]
  have hauto : [g1, g2].filter (fun e => e.source == "auto") = [] := by
    simp [List.filter, h1a, h2a]
  have hfold : List.foldlM (resolve_auto w [g1, g2]) [g1, g2] ([] : List Event) =
      some [g1, g2] := by
    simp [List.foldlM]
  simp only [merge_and_dedupe, hguided, hauto, hfold]
  have hlen : ¬ (mc < (sortLe tsLe [g1, g2]).length) := by
    rw [length_sortLe]
    simp only [List.length_cons, List.length_nil]
    omega
  rw [if_neg hlen]

/-- Outcome of `merge_and_dedupe` on two auto events: each is scanned only
against the (empty) guided list, so both survive. -/
theorem merge_pair_auto (w : ℚ) (mc : ℕ) (a1 a2 : Event)
    (h1 : a1.source = "auto") (h2 : a2.source = "auto") (hmc : 2 ≤ mc) :
    merge_and_dedupe w mc [a1, a2] = some (sortLe tsLe [a1, a2]) := by
  have h1g : (a1.source == "guided") = false := by simp [h1]
  have h1a : (a1.source == "auto") = true := by simp [h1]
  have h2g : (a2.source == "guided") = false := by simp [h2]
  have h2a : (a2.source == "auto") = true := by simp [h2]
  have hguided : [a1, a2].filter (fun e => e.source == "guided") = [] := by
    simp [List.filter, h1g, h2g]
  have hauto : [a1, a2].filter (fun e => e.source == "auto") = [a1, a2] := by
    simp [List.filter, h1a, h2a]
  have hfold : List.foldlM (resolve_auto w ([] : List Event))
      ([] : List Event) [a1, a2] = some [a1, a2] := by
    simp [List.foldlM, resolve_auto, List.find?]
  simp only [merge_and_dedupe, hguided, hauto, hfold]
  have hlen : ¬ (mc < (sortLe tsLe [a1, a2]).length) := by
    rw [length_sortLe]
    simp only [List.length_cons, List.length_nil]
    omega
  rw [if_neg hlen]

/-- C1: for an auto event and a guided event of the same or related type
within the dedupe window, the auto event replaces the guided event if and
only if its confidence is at least the guided confidence plus the fixed
0.15 margin; otherwise the guided event is retained unchanged and the auto
event is dropped. -/
theorem C1_conflict_promotion (w : ℚ) (mc : ℕ) (g a : Event)
    (hg : g.source = "guided") (ha : a.source = "auto")
    (hsim : events_similar a g = true)
    (hwin : |a.abs_ts - g.abs_ts| ≤ w) (hmc : 1 ≤ mc) :
    merge_and_dedupe w mc [g, a] =
      some (if g.confidence + 3 / 20 ≤ a.confidence then [a] else [g]) :=
  merge_pair_conflict w mc g a hg ha hsim hwin hmc

/-- C1 witness: the specification scenario — guided goal at 300 with
confidence 1 against auto goal_like at 301 with confidence 0.9 under window
4 keeps exactly the guided goal at 300. -/
theorem C1_witness :
    events_similar aGoalLike gGoal = true ∧
    |aGoalLike.abs_ts - gGoal.abs_ts| ≤ 4 ∧
    merge_and_dedupe 4 10 [gGoal, aGoalLike] = some [gGoal] := by
  have hsim : events_similar aGoalLike gGoal = true := by decide
  have hwin : |aGoalLike.abs_ts - gGoal.abs_ts| ≤ (4 : ℚ) := by
    simp only [aGoalLike, gGoal]
    norm_num
  have h := C1_conflict_promotion 4 10 gGoal aGoalLike rfl rfl hsim hwin
    (by decide)
  rw [if_neg (by simp only [gGoal, aGoalLike]; norm_num :
    ¬ (gGoal.confidence + 3 / 20 ≤ aGoalLike.confidence))] at h
  exact ⟨hsim, hwin, h⟩

/-- C2 counterexample: a guided and an auto `goal` exactly
`dedupe_window_s = 4` seconds apart ARE treated as a conflict (the window
comparison is `<=`), so only the guided event survives — the claim predicts
both are retained. -/
theorem C2_counterexample :
    |aGoalLate.abs_ts - gGoalEarly.abs_ts| = 4 ∧
    merge_and_dedupe 4 10 [gGoalEarly, aGoalLate] = some [gGoalEarly] := by
  have habs : |aGoalLate.abs_ts - gGoalEarly.abs_ts| = (4 : ℚ) := by
    simp only [aGoalLate, gGoalEarly]
    norm_num
  have h := merge_pair_conflict 4 10 gGoalEarly aGoalLate rfl rfl (by decide)
    (le_of_eq habs) (by decide)
  rw [if_neg (by simp only [gGoalEarly, aGoalLate]; norm_num :
    ¬ (gGoalEarly.confidence + 3 / 20 ≤ aGoalLate.confidence))] at h
  exact ⟨habs, h⟩

/-- C2 (amended): the dedupe window is inclusive — a guided and an auto
event of a similar type exactly `dedupe_window_s` apart are treated as a
conflict and reduced to one event, while a pair strictly more than
`dedupe_window_s` apart is kept distinct (both retained). -/
theorem C2_window_inclusive (w : ℚ) (mc : ℕ) (g a : Event)
    (hg : g.source = "guided") (ha : a.source = "auto")
    (hsim : events_similar a g = true) (hmc : 2 ≤ mc) :
    (|a.abs_ts - g.abs_ts| = w →
      merge_and_dedupe w mc [g, a] =
        some (if g.confidence + 3 / 20 ≤ a.confidence then [a] else [g])) ∧
    (w < |a.abs_ts - g.abs_ts| →
      merge_and_dedupe w mc [g, a] = some (sortLe tsLe [g, a])) := by
  constructor
  · intro he
    exact merge_pair_conflict w mc g a hg ha hsim (le_of_eq he) (by omega)
  · intro hgt
    refine merge_pair_no_conflict w mc g a hg ha ?_ hmc
    have hdec : decide (|a.abs_ts - g.abs_ts| ≤ w) = false :=
      decide_eq_false (not_le.mpr hgt)
    simp [hdec]

/-- C2 witness: the same guided/auto goal pair 4 seconds apart conflicts at
window 4 (one survivor) and is kept distinct at window 3 (both retained). -/
theorem C2_witness :
    merge_and_dedupe 4 10 [gGoalEarly, aGoalLate] = some [gGoalEarly] ∧
    merge_and_dedupe 3 10 [gGoalEarly, aGoalLate] =
      some (sortLe tsLe [gGoalEarly, aGoalLate]) := by
  have habs : |aGoalLate.abs_ts - gGoalEarly.abs_ts| = (4 : ℚ) := by
    simp only [aGoalLate, gGoalEarly]
    norm_num
  have h1 := (C2_window_inclusive 4 10 gGoalEarly aGoalLate rfl rfl
    (by decide) (by decide)).1 habs
  have h2 := (C2_window_inclusive 3 10 gGoalEarly aGoalLate rfl rfl
    (by decide) (by decide)).2 (by rw [habs]; norm_num)
  rw [if_neg (by simp only [gGoalEarly, aGoalLate]; norm_num :
    ¬ (gGoalEarly.confidence + 3 / 20 ≤ aGoalLate.confidence))] at h1
  exact ⟨h1, h2⟩

/-- C3 counterexample: two guided `goal` events one second apart (same type,
within the window 4) BOTH survive `merge_and_dedupe` — deduplication never
compares guided events with each other, so the claimed invariant fails. -/
theorem C3_counterexample :
    merge_and_dedupe 4 10 [gGoalEarly, gGoalSecond] =
      some [gGoalEarly, gGoalSecond] ∧
    events_similar gGoalEarly gGoalSecond = true ∧
    |gGoalEarly.abs_ts - gGoalSecond.abs_ts| ≤ 4 := by
  have h := merge_pair_guided 4 10 gGoalEarly gGoalSecond rfl rfl (by decide)
  have hsort : sortLe tsLe [gGoalEarly, gGoalSecond] =
      [gGoalEarly, gGoalSecond] := by decide
  rw [hsort] at h
  refine ⟨h, by decide, ?_⟩
  simp only [gGoalEarly, gGoalSecond]
  norm_num

/-- C3 (amended): deduplication acts only across sources — a pair of
similar guided events within the window both survive, a pair of similar
auto events within the window both survive, and only an auto event
conflicting with a guided event is resolved down to exactly one of the
two. -/
theorem C3_dedupe_cross_source_only (w : ℚ) (mc : ℕ) (hmc : 2 ≤ mc) :
    (∀ g1 g2 : Event, g1.source = "guided" → g2.source = "guided" →
      events_similar g1 g2 = true → |g1.abs_ts - g2.abs_ts| ≤ w →
      merge_and_dedupe w mc [g1, g2] = some (sortLe tsLe [g1, g2])) ∧
    (∀ a1 a2 : Event, a1.source = "auto" → a2.source = "auto" →
      events_similar a1 a2 = true → |a1.abs_ts - a2.abs_ts| ≤ w →
      merge_and_dedupe w mc [a1, a2] = some (sortLe tsLe [a1, a2])) ∧
    (∀ g a : Event, g.source = "guided" → a.source = "auto" →
      events_similar a g = true → |a.abs_ts - g.abs_ts| ≤ w →
      merge_and_dedupe w mc [g, a] =
        some (if g.confidence + 3 / 20 ≤ a.confidence then [a] else [g])) := by
  refine ⟨?_, ?_, ?_⟩
  · intro g1 g2 h1 h2 _ _
    exact merge_pair_guided w mc g1 g2 h1 h2 hmc
  · intro a1 a2 h1 h2 _ _
    exact merge_pair_auto w mc a1 a2 h1 h2 hmc
  · intro g a hg ha hsim hwin
    exact merge_pair_conflict w mc g a hg ha hsim hwin (by omega)

/-- C3 witness: concrete guided-only, auto-only and cross-source pairs. -/
theorem C3_witness :
    merge_and_dedupe 4 10 [gGoalEarly, gGoalSecond] =
      some (sortLe tsLe [gGoalEarly, gGoalSecond]) ∧
    merge_and_dedupe 4 10 [aGoalA, aGoalB] =
      some (sortLe tsLe [aGoalA, aGoalB]) ∧
    merge_and_dedupe 4 10 [gGoal, aGoalLike] =
      some (if gGoal.confidence + 3 / 20 ≤ aGoalLike.confidence then
        [aGoalLike] else [gGoal]) := by
  have h := C3_dedupe_cross_source_only 4 10 (by decide)
  refine ⟨h.1 gGoalEarly gGoalSecond rfl rfl (by decide) ?_,
    h.2.1 aGoalA aGoalB rfl rfl (by decide) ?_,
    h.2.2 gGoal aGoalLike rfl rfl (by decide) ?_⟩
  · simp only [gGoalEarly, gGoalSecond]
    norm_num
  · simp only [aGoalA, aGoalB]
    norm_num
  · simp only [gGoal, aGoalLike]
    norm_num

/-- C7 evidence: a record with the unparseable `abs_ts` string `"garbage"`
is NOT dropped — `parse_timestamp` swallows the parse error and returns
`0.0`, so an event with `abs_ts = 0` is retained, while a record with no
kickoff reference and no explicit `abs_ts` is dropped as claimed. -/
theorem C7_unparseable_abs_ts_retained :
    (create_event_from_data none
      { type := some "goal", abs_ts := some (PyVal.str "garbage") }
      "guided").map (fun e => e.abs_ts) = some 0 ∧
    create_event_from_data none { type := some "goal" } "guided" = none := by
  exact ⟨rfl, rfl⟩

/-- Concrete evaluation of `parse_match_clock` on `"00:30"`. -/
theorem parse_match_clock_0030 : parse_match_clock "00:30" = 30 := by
  have h : parse_match_clock "00:30" = ((0 : ℤ) : ℚ) * 60 + ((30 : ℤ) : ℚ) := rfl
  rw [h]
  push_cast
  norm_num

/-- Concrete evaluation of `compute_absolute_time` for half 1, clock
`"00:30"` and kickoff 0. -/
theorem compute_absolute_time_h1_0030 :
    compute_absolute_time 1 "00:30" 0 15 = 30 := by
  simp only [compute_absolute_time, if_pos rfl]
  rw [parse_match_clock_0030]
  norm_num

/-- Concrete evaluation of `parse_timestamp` on `"00:01:40"`. -/
theorem parse_timestamp_000140 : parse_timestamp "00:01:40" = 100 := by
  have h : parse_timestamp "00:01:40" =
      ((0 : ℤ) : ℚ) * 3600 + ((1 : ℤ) : ℚ) * 60 + ((40 : ℤ) : ℚ) +
        (((0 : ℕ) : ℚ) + ((0 : ℕ) : ℚ) / (10 : ℚ) ^ 1) := rfl
  rw [h]
  push_cast
  norm_num

/-- C8 counterexample: a guided event loaded with the explicit absolute
timestamp `"00:01:40"` (resolved to 100) and half/clock fields gets its
`abs_ts` overwritten to 30 by `set_kickoff_time 0` — the recomputation is
unconditional for guided events with truthy `half` and `clock`, it does not
spare events whose `abs_ts` was already resolved. -/
theorem C8_counterexample :
    create_event_from_data none
      { type := some "goal", abs_ts := some (PyVal.str "00:01:40"),
        half := some 1, clock := some "00:30" } "guided" = some evExplicit ∧
    evExplicit.abs_ts = 100 ∧
    (set_kickoff_event 0 evExplicit).abs_ts = 30 := by
  refine ⟨?_, rfl, ?_⟩
  · have h : create_event_from_data none
        { type := some "goal", abs_ts := some (PyVal.str "00:01:40"),
          half := some 1, clock := some "00:30" } "guided" =
        some { evExplicit with abs_ts := parse_timestamp "00:01:40" } := rfl
    rw [h, parse_timestamp_000140]
    rfl
  · have h : set_kickoff_event 0 evExplicit =
        { evExplicit with abs_ts := compute_absolute_time 1 "00:30" 0 15 } := rfl
    rw [h]
    exact compute_absolute_time_h1_0030

/-- C8 (amended): `set_kickoff_time` recomputes `abs_ts` from
`(half, clock, kickoff)` for EVERY guided event with truthy `half` and
`clock` — overwriting an already-resolved `abs_ts` — leaves every other
event completely unchanged, and never modifies any field other than
`abs_ts`. -/
theorem C8_set_kickoff_recompute (k : ℚ) (e : Event) :
    (∀ h c, e.source = "guided" → e.half = some h → e.clock = some c →
      h ≠ 0 → c ≠ "" →
      set_kickoff_event k e =
        { e with abs_ts := compute_absolute_time h c k 15 }) ∧
    (e.source ≠ "guided" ∨ e.half = none ∨ e.half = some 0 ∨
      e.clock = none ∨ e.clock = some "" → set_kickoff_event k e = e) ∧
    (∃ t : ℚ, set_kickoff_event k e = { e with abs_ts := t }) := by
  refine ⟨?_, ?_, ?_⟩
  · intro h c hs hh hc hh0 hc0
    simp only [set_kickoff_event, hs, hh, hc]
    simp [if_pos (And.intro hh0 hc0)]
  · rintro (hs | hh | hh | hc | hc)
    · have : (e.source == "guided") = false := by simp [hs]
      simp [set_kickoff_event, this]
    · cases hc : e.clock <;> simp [set_kickoff_event, hh, hc]
    · cases hc : e.clock <;> simp [set_kickoff_event, hh, hc]
    · cases hh : e.half <;> simp [set_kickoff_event, hh, hc]
    · cases hh : e.half <;> simp [set_kickoff_event, hh, hc]
  · rcases e with ⟨ty, ts, hf, ck, tm, pl, asst, sc, nt, st, cf, sg, src, prp, pop, zm, rp⟩
    rcases hf with _ | hv <;> rcases ck with _ | cv
    · exact ⟨ts, by simp [set_kickoff_event]⟩
    · exact ⟨ts, by simp [set_kickoff_event]⟩
    · exact ⟨ts, by simp [set_kickoff_event]⟩
    · by_cases hs : (src == "guided") = true
      · by_cases hcond : hv ≠ 0 ∧ cv ≠ ""
        · exact ⟨compute_absolute_time hv cv k 15,
            by simp [set_kickoff_event, hs, hcond]⟩
        · exact ⟨ts, by simp [set_kickoff_event, hs, hcond]⟩
      · have hs2 : (src == "guided") = false := by
          simpa using hs
        exact ⟨ts, by simp [set_kickoff_event, hs2]⟩

/-- C8 witness: the guided event with explicit timestamp and half/clock is
recomputed from the new kickoff, and an auto event is untouched. -/
theorem C8_witness :
    set_kickoff_event 600 evExplicit =
      { evExplicit with abs_ts := compute_absolute_time 1 "00:30" 600 15 } ∧
    set_kickoff_event 600 aGoalLike = aGoalLike :=
  ⟨(C8_set_kickoff_recompute 600 evExplicit).1 1 "00:30" rfl rfl rfl
      (by decide) (by decide),
    (C8_set_kickoff_recompute 600 aGoalLike).2.1 (Or.inl (by decide))⟩

/-- Membership in a list is preserved by `insertUniq`. -/
theorem mem_insertUniq_of_mem [BEq α] (l : List α) (a y : α) (hy : y ∈ l) :
    y ∈ insertUniq l a := by
  unfold insertUniq
  split
  · exact hy
  · exact List.mem_append.mpr (Or.inl hy)

/-- The inserted element is a member of `insertUniq`. -/
theorem self_mem_insertUniq [BEq α] [LawfulBEq α] (l : List α) (a : α) :
    a ∈ insertUniq l a := by
  unfold insertUniq
  split
  · next h => exact List.mem_of_elem_eq_true h
  · exact List.mem_append.mpr (Or.inr (List.mem_singleton.mpr rfl))

/-- Elements already in the accumulator survive a fold of `insertUniq`. -/
theorem mem_foldl_insertUniq_init [BEq α] [LawfulBEq α] (l : List α) :
    ∀ (init : List α) (y : α), y ∈ init → y ∈ l.foldl insertUniq init := by
  induction l with
  | nil => intro init y hy; exact hy
  | cons a t ih =>
    intro init y hy
    exact ih _ y (mem_insertUniq_of_mem init a y hy)

/-- Every element of the scanned list appears in the `insertUniq` fold. -/
theorem mem_foldl_insertUniq [BEq α] [LawfulBEq α] (l : List α) :
    ∀ (init : List α) (x : α), x ∈ l → x ∈ l.foldl insertUniq init := by
  induction l with
  | nil => intro init x hx; cases hx
  | cons a t ih =>
    intro init x hx
    rcases List.mem_cons.mp hx with rfl | hx2
    · exact mem_foldl_insertUniq_init t _ x (self_mem_insertUniq init x)
    · exact ih _ x hx2

/-- C10: a detection with no `timestamp` field is neither skipped nor an
error for `fuse_signals`: it is assigned to bucket 0 with timestamp value
`0`, that value enters the timestamp list of bucket 0 (whose mean becomes the
timestamp of the fused event), and a fused event for bucket 0 is generated. -/
theorem C10_missing_timestamp (weights : String → ℚ) (bucketSize : ℚ)
    (signals : List (String × List Detection)) (t : String)
    (ds : List Detection) (d : Detection)
    (hb : 0 < bucketSize) (hs : (t, ds) ∈ signals) (hd : d ∈ ds)
    (ht : d.timestamp = none) :
    bucketIdxOf bucketSize d = 0 ∧
    (t, d) ∈ bucketEntries bucketSize signals 0 ∧
    (0 : ℚ) ∈ bucketTimestamps bucketSize signals 0 ∧
    (0 : ℤ) ∈ bucketIndices bucketSize signals ∧
    fusedEventAt weights bucketSize signals 0 ∈
      (bucketIndices bucketSize signals).map
        (fusedEventAt weights bucketSize signals) ∧
    (fusedEventAt weights bucketSize signals 0).timestamp =
      (bucketTimestamps bucketSize signals 0).sum /
        ((bucketTimestamps bucketSize signals 0).length : ℚ) := by
  have hts : detTimestamp d = 0 := by simp [detTimestamp, ht]
  have hidx : bucketIdxOf bucketSize d = 0 := by
    simp [bucketIdxOf, hts, pyInt]
  have hmemAll : (t, d) ∈ allEntries signals := by
    simp only [allEntries, List.mem_flatMap]
    exact ⟨(t, ds), hs, List.mem_map_of_mem (fun x => (t, x)) hd⟩
  have hmemB : (t, d) ∈ bucketEntries bucketSize signals 0 := by
    refine List.mem_filter.mpr ⟨hmemAll, ?_⟩
    simp [hidx]
  have hmemT : (0 : ℚ) ∈ bucketTimestamps bucketSize signals 0 := by
    have h2 := List.mem_map_of_mem
      (fun p : String × Detection => detTimestamp p.2) hmemB
    simpa [bucketTimestamps, hts] using h2
  have hmemI : (0 : ℤ) ∈ bucketIndices bucketSize signals := by
    have hmem0 : (0 : ℤ) ∈
        (allEntries signals).map (fun p => bucketIdxOf bucketSize p.2) := by
      have h2 := List.mem_map_of_mem
        (fun p : String × Detection => bucketIdxOf bucketSize p.2) hmemAll
      simpa [hidx] using h2
    exact mem_foldl_insertUniq _ _ _ hmem0
  have h3 := List.mem_map_of_mem (fusedEventAt weights bucketSize signals) hmemI
  exact ⟨hidx, hmemB, hmemT, hmemI, h3, rfl⟩

/-- C10 witness: a single `audio` detection with no timestamp lands in
bucket 0 and contributes the value 0 to the timestamps of that bucket. -/
theorem C10_witness :
    (0 : ℚ) < 1 ∧ dNoTimestamp.timestamp = none ∧
    bucketIdxOf 1 dNoTimestamp = 0 ∧
    ("audio", dNoTimestamp) ∈ bucketEntries 1 [("audio", [dNoTimestamp])] 0 ∧
    (0 : ℚ) ∈ bucketTimestamps 1 [("audio", [dNoTimestamp])] 0 := by
  have h := C10_missing_timestamp default_weight 1 [("audio", [dNoTimestamp])]
    "audio" [dNoTimestamp] dNoTimestamp (by norm_num) (by simp) (by simp) rfl
  exact ⟨by norm_num, rfl, h.1, h.2.1, h.2.2.1⟩

/-- Aggregation never changes the timestamp of the anchor. -/
theorem aggregate_timestamp (ms : List FEvent) :
    ∀ anchor : FEvent, (aggregate anchor ms).timestamp = anchor.timestamp := by
  induction ms with
  | nil => intro anchor; rfl
  | cons m t ih =>
    intro anchor
    show (aggregate (agg_step anchor m) t).timestamp = anchor.timestamp
    rw [ih]
    rfl

/-- Appending one member to a group aggregates it with one more
`agg_step`. -/
theorem aggregate_concat (anchor : FEvent) (ms : List FEvent) (e : FEvent) :
    aggregate anchor (ms ++ [e]) = agg_step (aggregate anchor ms) e := by
  simp [aggregate, List.foldl_append]

/-- Correspondence between the merge sweep of `merge_nearby_events` and the
anchor-rule grouping sweep. -/
theorem merge_fold_corr (w : ℚ) (l : List FEvent) :
    ∀ (done : List (FEvent × List FEvent)) (anchor : FEvent)
      (ms : List FEvent),
    l.foldl (merge_step w)
        (done.map (fun p => aggregate p.1 p.2), aggregate anchor ms) =
      ((l.foldl (group_step w) (done, anchor, ms)).1.map
          (fun p => aggregate p.1 p.2),
        aggregate (l.foldl (group_step w) (done, anchor, ms)).2.1
          (l.foldl (group_step w) (done, anchor, ms)).2.2) := by
  induction l with
  | nil => intro done anchor ms; rfl
  | cons e rest ih =>
    intro done anchor ms
    by_cases hC : e.timestamp - anchor.timestamp < w
    · have h1 : merge_step w
          (done.map (fun p => aggregate p.1 p.2), aggregate anchor ms) e =
          (done.map (fun p => aggregate p.1 p.2),
            aggregate anchor (ms ++ [e])) := by
        simp only [merge_step, aggregate_timestamp, aggregate_concat]
        rw [if_pos hC]
      have h2 : group_step w (done, anchor, ms) e = (done, anchor, ms ++ [e]) := by
        simp only [group_step]
        rw [if_pos hC]
      simp only [List.foldl_cons, h1, h2]
      exact ih done anchor (ms ++ [e])
    · have h1 : merge_step w
          (done.map (fun p => aggregate p.1 p.2), aggregate anchor ms) e =
          ((done ++ [(anchor, ms)]).map (fun p => aggregate p.1 p.2),
            aggregate e []) := by
        simp only [merge_step, aggregate_timestamp]
        rw [if_neg hC]
        simp [List.map_append, aggregate]
      have h2 : group_step w (done, anchor, ms) e =
          (done ++ [(anchor, ms)], e, []) := by
        simp only [group_step]
        rw [if_neg hC]
      simp only [List.foldl_cons, h1, h2]
      exact ih (done ++ [(anchor, ms)]) e []

/-- The merge sweep equals aggregation over the anchor-rule groups. -/
theorem merge_eq_groups (w : ℚ) (events : List FEvent) :
    merge_nearby_events w events =
      (merge_groups w events).map (fun p => aggregate p.1 p.2) := by
  unfold merge_nearby_events merge_groups
  cases hs : sortLe ftsLe events with
  | nil => rfl
  | cons e0 rest =>
    have h0 : (([] : List FEvent), e0) =
        (([] : List (FEvent × List FEvent)).map (fun p => aggregate p.1 p.2),
          aggregate e0 []) := rfl
    show (rest.foldl (merge_step w) ([], e0)).1 ++
        [(rest.foldl (merge_step w) ([], e0)).2] = _
    rw [h0, merge_fold_corr w rest [] e0 []]
    simp [List.map_append]

/-- Group score is the running maximum of member scores over the score of
the anchor. -/
theorem aggregate_score (ms : List FEvent) :
    ∀ anchor : FEvent, (aggregate anchor ms).score =
      ms.foldl (fun s e => max s e.score) anchor.score := by
  induction ms with
  | nil => intro anchor; rfl
  | cons m t ih =>
    intro anchor
    show (aggregate (agg_step anchor m) t).score = _
    rw [ih]
    rfl

/-- Group raw score is the raw score of the anchor plus the sum of member raw scores. -/
theorem aggregate_raw_score (ms : List FEvent) :
    ∀ anchor : FEvent, (aggregate anchor ms).raw_score =
      anchor.raw_score + (ms.map (fun e => e.raw_score)).sum := by
  induction ms with
  | nil => intro anchor; simp [aggregate]
  | cons m t ih =>
    intro anchor
    show (aggregate (agg_step anchor m) t).raw_score = _
    rw [ih]
    show anchor.raw_score + m.raw_score + (t.map (fun e => e.raw_score)).sum = _
    simp [add_assoc]

/-- Group signal count is that of the anchor plus the sum of member counts. -/
theorem aggregate_num_signals (ms : List FEvent) :
    ∀ anchor : FEvent, (aggregate anchor ms).num_signals =
      anchor.num_signals + (ms.map (fun e => e.num_signals)).sum := by
  induction ms with
  | nil => intro anchor; simp [aggregate]
  | cons m t ih =>
    intro anchor
    show (aggregate (agg_step anchor m) t).num_signals = _
    rw [ih]
    show anchor.num_signals + m.num_signals +
      (t.map (fun e => e.num_signals)).sum = _
    simp [add_assoc]

/-- C4 (amended): `merge_nearby_events` sorts by timestamp and folds an
event into the current merged group exactly when its gap to the FIRST event
of the group (the anchor — whose timestamp the merged event keeps, as it is
never updated on merge) is strictly less than `time_window`; a chain
therefore splits as soon as an event is `time_window` or more away from the
anchor of the group, even if it is close to its immediate predecessor.  In a
merged group, `score` is the maximum of the member scores and `raw_score`
and `num_signals` are the sums. -/
theorem C4_merge_anchor_grouping :
    (∀ (w : ℚ) (events : List FEvent),
      merge_nearby_events w events =
        (merge_groups w events).map (fun p => aggregate p.1 p.2)) ∧
    (∀ (anchor : FEvent) (ms : List FEvent),
      (aggregate anchor ms).timestamp = anchor.timestamp ∧
      (aggregate anchor ms).score =
        ms.foldl (fun s e => max s e.score) anchor.score ∧
      (aggregate anchor ms).raw_score =
        anchor.raw_score + (ms.map (fun e => e.raw_score)).sum ∧
      (aggregate anchor ms).num_signals =
        anchor.num_signals + (ms.map (fun e => e.num_signals)).sum) :=
  ⟨merge_eq_groups, fun anchor ms =>
    ⟨aggregate_timestamp ms anchor, aggregate_score ms anchor,
      aggregate_raw_score ms anchor, aggregate_num_signals ms anchor⟩⟩

/-- C4 counterexample: a chain 0, 2, 4 with window 3 — each event is within
the window of its immediate predecessor, yet the merge produces TWO events,
not one: event 4 is compared against the group anchor at 0 (gap 4 ≥ 3), not
against the previous event at 2. -/
theorem C4_counterexample :
    (fe2.timestamp - fe0.timestamp < 3 ∧ fe4.timestamp - fe2.timestamp < 3) ∧
    (merge_nearby_events 3 [fe0, fe2, fe4]).length = 2 := by
  have hsort : sortLe ftsLe [fe0, fe2, fe4] = [fe0, fe2, fe4] := by decide
  have c1 : fe2.timestamp - fe0.timestamp < (3 : ℚ) := by norm_num [fe0, fe2]
  have c1b : fe4.timestamp - fe2.timestamp < (3 : ℚ) := by norm_num [fe2, fe4]
  have c2 : ¬ (fe4.timestamp - (agg_step fe0 fe2).timestamp < (3 : ℚ)) := by
    norm_num [fe0, fe4, agg_step]
  have s1 : merge_step 3 (([] : List FEvent), fe0) fe2 =
      ([], agg_step fe0 fe2) := by
    simp [merge_step, c1]
  have s2 : merge_step 3 (([] : List FEvent), agg_step fe0 fe2) fe4 =
      ([agg_step fe0 fe2], fe4) := by
    simp [merge_step, c2]
  have hfold : List.foldl (merge_step 3) (([] : List FEvent), fe0)
      [fe2, fe4] = ([agg_step fe0 fe2], fe4) := by
    simp only [List.foldl_cons, List.foldl_nil, s1, s2]
  refine ⟨⟨c1, c1b⟩, ?_⟩
  simp only [merge_nearby_events, hsort, hfold]
  rfl

/-- An initial-segment test survives appending to the right of the hay. -/
theorem startsWithL_append (n : List Char) :
    ∀ x z : List Char, startsWithL n x = true →
      startsWithL n (x ++ z) = true := by
  induction n with
  | nil => intro x z h; rfl
  | cons a as ih =>
    intro x z h
    cases x with
    | nil => simp [startsWithL] at h
    | cons b bs =>
      simp only [startsWithL, Bool.and_eq_true] at h ⊢
      exact ⟨h.1, ih bs z h.2⟩

/-- The empty needle is a substring of everything. -/
theorem containsSub_nil_needle (hay : List Char) :
    containsSub [] hay = true := by
  cases hay with
  | nil => rfl
  | cons b bs => simp [containsSub, startsWithL]

/-- A needle that starts the hay is a substring of it. -/
theorem containsSub_of_startsWithL (n hay : List Char)
    (h : startsWithL n hay = true) : containsSub n hay = true := by
  cases hay with
  | nil => exact h
  | cons b bs => simp [containsSub, h]

/-- A needle that only starts an empty hay is empty. -/
theorem eq_nil_of_startsWithL_nil (n : List Char)
    (h : startsWithL n [] = true) : n = [] := by
  cases n with
  | nil => rfl
  | cons a as => simp [startsWithL] at h

/-- Substring containment survives appending to the right. -/
theorem containsSub_append_left (n : List Char) :
    ∀ x z : List Char, containsSub n x = true →
      containsSub n (x ++ z) = true := by
  intro x
  induction x with
  | nil =>
    intro z h
    rw [eq_nil_of_startsWithL_nil n h]
    exact containsSub_nil_needle z
  | cons b bs ih =>
    intro z h
    simp only [containsSub, Bool.or_eq_true] at h
    rcases h with h | h
    · simp only [List.cons_append, containsSub, Bool.or_eq_true]
      exact Or.inl (startsWithL_append n (b :: bs) z h)
    · simp only [List.cons_append, containsSub, Bool.or_eq_true]
      exact Or.inr (ih z h)

/-- Substring containment in the right part implies containment in the
whole. -/
theorem containsSub_append_right (n : List Char) :
    ∀ x y : List Char, containsSub n y = true →
      containsSub n (x ++ y) = true := by
  intro x
  induction x with
  | nil => intro y h; exact h
  | cons b bs ih =>
    intro y h
    simp only [List.cons_append, containsSub, Bool.or_eq_true]
    exact Or.inr (ih y h)

/-- A needle not containing the separator that starts `x ++ c :: y` starts
`x` itself. -/
theorem startsWithL_split (c : Char) :
    ∀ (x n y : List Char), c ∉ n → startsWithL n (x ++ c :: y) = true →
      startsWithL n x = true := by
  intro x
  induction x with
  | nil =>
    intro n y hc h
    cases n with
    | nil => rfl
    | cons a as =>
      simp only [List.nil_append, startsWithL, Bool.and_eq_true, beq_iff_eq] at h
      exact absurd (h.1 ▸ List.mem_cons_self a as) hc
  | cons b bs ih =>
    intro n y hc h
    cases n with
    | nil => rfl
    | cons a as =>
      simp only [List.cons_append, startsWithL, Bool.and_eq_true] at h ⊢
      refine ⟨h.1, ih as y ?_ h.2⟩
      intro hmem
      exact hc (List.mem_cons_of_mem a hmem)

/-- A space-free needle found in `x ++ c :: y` lies entirely in `x` or
entirely in `y`. -/
theorem containsSub_split (c : Char) :
    ∀ (x n y : List Char), n ≠ [] → c ∉ n →
      containsSub n (x ++ c :: y) = true →
      containsSub n x = true ∨ containsSub n y = true := by
  intro x
  induction x with
  | nil =>
    intro n y hn hc h
    simp only [List.nil_append, containsSub, Bool.or_eq_true] at h
    rcases h with h | h
    · exact absurd (eq_nil_of_startsWithL_nil n (startsWithL_split c [] n y hc h)) hn
    · exact Or.inr h
  | cons b bs ih =>
    intro n y hn hc h
    simp only [List.cons_append, containsSub, Bool.or_eq_true] at h
    rcases h with h | h
    · have hstart : startsWithL n (b :: bs) = true :=
        startsWithL_split c (b :: bs) n y hc (by simpa using h)
      exact Or.inl (containsSub_of_startsWithL n (b :: bs) hstart)
    · rcases ih n y hn hc h with h2 | h2
      · refine Or.inl ?_
        simp only [containsSub, Bool.or_eq_true]
        exact Or.inr h2
      · exact Or.inr h2

/-- Substring containment distributes over a separator-joined
concatenation, for a nonempty needle avoiding the separator. -/
theorem containsSub_append_sep (n x y : List Char) (c : Char)
    (hn : n ≠ []) (hc : c ∉ n) :
    containsSub n (x ++ c :: y) = (containsSub n x || containsSub n y) := by
  cases hL : containsSub n (x ++ c :: y) with
  | true =>
    rcases containsSub_split c x n y hn hc hL with h | h
    · rw [h]
      rfl
    · rw [h, Bool.or_true]
  | false =>
    cases h1 : containsSub n x with
    | true => rw [containsSub_append_left n x (c :: y) h1] at hL; cases hL
    | false =>
      cases h2 : containsSub n y with
      | true =>
        rw [containsSub_append_right n x (c :: y)
          (by simp [containsSub, h2])] at hL
        cases hL
      | false => rfl

/-- Substring search in the space-joined tag list equals a per-tag search,
for a nonempty needle without spaces. -/
theorem containsSub_joinSp (n : List Char) (hn : n ≠ []) (hc : ' ' ∉ n) :
    ∀ ts : List (List Char),
      containsSub n (joinSp ts) = ts.any (fun t => containsSub n t) := by
  intro ts
  induction ts with
  | nil =>
    cases n with
    | nil => exact absurd rfl hn
    | cons a as => rfl
  | cons t rest ih =>
    cases rest with
    | nil => simp [joinSp]
    | cons t2 rest2 =>
      show containsSub n (t ++ ' ' :: joinSp (t2 :: rest2)) = _
      rw [containsSub_append_sep n t (joinSp (t2 :: rest2)) ' ' hn hc, ih]
      simp [List.any_cons]

/-- Any-search over a mapped list is an any-search of the composite over
the original list. -/
theorem anyOnMap (l : List α) (f : α → β) (p : β → Bool) :
    (l.map f).any p = l.any (fun a => p (f a)) := by
  induction l with
  | nil => rfl
  | cons a t ih => simp [List.any_cons, ih]

/-- The code-side type assignment coincides with the amended spec-side
one. -/
theorem event_type_of_eq_spec (e : FEvent) :
    event_type_of e = spec_event_type e := by
  simp only [event_type_of, spec_event_type]
  rw [containsSub_joinSp ("goal".toList) (by decide) (by decide)
        (e.signal_types.map String.toList),
      containsSub_joinSp ("save".toList) (by decide) (by decide)
        (e.signal_types.map String.toList),
      containsSub_joinSp ("big_save".toList) (by decide) (by decide)
        (e.signal_types.map String.toList)]
  simp only [anyOnMap]

/-- The export loop agrees with the spec-side loop at every start index. -/
theorem export_from_eq_spec (l : List FEvent) :
    ∀ i : ℕ, export_from i l = spec_export_from i l := by
  induction l with
  | nil => intro i; rfl
  | cons e rest ih =>
    intro i
    show json_event_of i e :: export_from (i + 1) rest =
      spec_json_event i e :: spec_export_from (i + 1) rest
    rw [ih (i + 1)]
    have : json_event_of i e = spec_json_event i e := by
      unfold json_event_of spec_json_event
      rw [event_type_of_eq_spec]
    rw [this]

/-- C6 (amended): `export_to_json_events` assigns the type of each fused event
by the priority `goal` (some tag contains "goal") > `save` (some tag
contains "save"/"big_save") > `foul` ("whistle" among the tags — not
whistle-only) > `goal_like` ("audio_spike" among the tags — not necessarily
the sole tag — and score above 3) > `highlight`; each output gets
`confidence = score` and `minute` = truncation of `timestamp / 60`, which
equals `floor(timestamp / 60)` for nonnegative timestamps. -/
theorem C6_export_characterization :
    (∀ fused : List FEvent,
      export_to_json_events fused = spec_export fused) ∧
    (∀ e : FEvent, 0 ≤ e.timestamp →
      pyInt (e.timestamp / 60) = Int.floor (e.timestamp / 60)) := by
  constructor
  · intro fused
    exact export_from_eq_spec fused 1
  · intro e h
    unfold pyInt
    rw [if_pos (by positivity : (0 : ℚ) ≤ e.timestamp / 60)]

/-- C6 counterexample: an event with signal types `whistle` and
`flow_burst` is exported as `foul` although its signal set is NOT
whistle-only — the code tests membership of `"whistle"`, not
exclusivity. -/
theorem C6_counterexample :
    (export_to_json_events [fevWhistleFlow]).map (fun j => j.type) =
      ["foul"] ∧
    "flow_burst" ∈ fevWhistleFlow.signal_types ∧
    "flow_burst" ≠ "whistle" := by
  refine ⟨?_, by decide, by decide⟩
  show [(json_event_of 1 fevWhistleFlow).type] = ["foul"]
  have : (json_event_of 1 fevWhistleFlow).type =
      event_type_of fevWhistleFlow := rfl
  rw [this]
  decide

/-- C6 witness: the characterization applied to the whistle-and-flow event,
whose nonnegative timestamp makes the minute a floor. -/
theorem C6_witness :
    export_to_json_events [fevWhistleFlow] = spec_export [fevWhistleFlow] ∧
    (0 : ℚ) ≤ fevWhistleFlow.timestamp ∧
    pyInt (fevWhistleFlow.timestamp / 60) =
      Int.floor (fevWhistleFlow.timestamp / 60) := by
  refine ⟨C6_export_characterization.1 [fevWhistleFlow], ?_, ?_⟩
  · norm_num [fevWhistleFlow]
  · exact C6_export_characterization.2 fevWhistleFlow
      (by norm_num [fevWhistleFlow])
